import Mathlib

/-!
Verification of the epinorm geocoding resolution engine.

This file gives a shallow embedding of the core of the `epinorm`
repository (the feature cache, the Nominatim client with its response
normalization, the administrative-unit gazetteer builder, the
admin-level policy table builder, and the per-source resolution
algorithms), and proves or refutes the frozen claims about it.

Modelling conventions:
* Python dictionaries coming from the remote service are embedded as
  typed structures; a field that Python reads with `.get` (and that may
  be absent) is an `Option`.
* Code that can raise a Python exception is embedded in
  `Except PyError`.
* The remote HTTP service and the transliteration library are external
  collaborators; they are embedded as explicit oracle functions passed
  as arguments.
* JSON serialization of geometry values (`json.dumps`) is opaque to
  every claim; it is embedded as an explicit, simple encoding.
-/

/-- Python exceptions that the embedded code can raise.
`programmingError` is the `sqlite3.ProgrammingError` raised when a
statement parameter has an unsupported type. -/
inductive PyError where
  | valueError (msg : String)
  | indexError
  | attributeError
  | programmingError (msg : String)
  deriving DecidableEq, Repr

/-- One entry of the detailed address hierarchy returned by the
Nominatim `/details` endpoint (`geo.py` reads the keys `localname`,
`type`, `admin_level`, `rank_address`, `osm_type`, `osm_id`).
The `type` key is embedded as `etype`. -/
structure AddressEntry where
  localname : String
  etype : String
  admin_level : Option Int
  rank_address : Option Int
  osm_type : String
  osm_id : Nat
  deriving DecidableEq, Repr

/-- A raw feature as returned by the Nominatim `search`/`reverse`/
`lookup` endpoints; `geo.py` reads these keys with `.get`, so each is
optional. The `boundingbox` and `geojson` payloads are opaque. -/
structure RawFeature where
  osm_type : Option String
  osm_id : Option Nat
  display_name : Option String
  place_rank : Option Nat
  lat : Option String
  lon : Option String
  boundingbox : Option String
  geojson : Option String
  addresstype : Option String
  deriving DecidableEq, Repr

/-- `OSM_ELEMENT_TYPES` from `geo.py`. -/
def OSM_ELEMENT_TYPES : List (String × String) :=
  [("node", "N"), ("way", "W"), ("relation", "R")]

/-- The values of `OSM_ELEMENT_TYPES`. -/
def osmTypeLetters : List String := OSM_ELEMENT_TYPES.map (·.2)

/-- `NominatimGeocoder.create_feature_id`: map an OSM element type and a
numeric id to a feature id such as `"R13310"`.  The element type may
already be a single letter ("The api responses are not consistent").
An unknown element type or a missing/non-integer id raises
`ValueError`. -/
def create_feature_id (osm_type : Option String) (osm_id : Option Nat) :
    Except PyError String :=
  match osm_type with
  | none => .error (.valueError "Invalid OSM element type")
  | some t =>
    if ¬ osmTypeLetters.contains t ∧ (OSM_ELEMENT_TYPES.lookup t).isNone then
      .error (.valueError "Invalid OSM element type")
    else
      let t' := (OSM_ELEMENT_TYPES.lookup t).getD t
      match osm_id with
      | none => .error (.valueError "Invalid OSM ID")
      | some n => .ok (t' ++ toString n)

/-- Opaque stand-in for `json.dumps` applied to a provider-supplied
geometry value (`boundingbox` / `geojson`); no claim inspects the
serialized content. -/
def json_dumps (v : Option String) : String :=
  match v with
  | none => "null"
  | some s => s

/-- The runtime type of the `address` value carried in a feature
dictionary.  `normalize_feature` in `geo.py` stores the *parsed* JSON
array returned by the `/details` endpoint (a Python list of dicts); a
row read back from the store carries the `address` column's TEXT value
(the legacy `geocode.py` serialized with `json.dumps` before saving
and parsed with `json.loads` after reading — `geo.py` does neither).
The distinction matters: Python's `sqlite3` can bind a `str` but not a
`list`. -/
inductive AddressValue where
  | parsed (entries : List AddressEntry)
  | text (s : String)
  deriving DecidableEq, Repr

/-- The canonical `Feature` produced by
`NominatimGeocoder.normalize_feature` (the ten keys of the returned
dictionary, in order). -/
structure Feature where
  id : String
  osm_id : Option Nat
  osm_type : Option String
  name : Option String
  address : AddressValue
  place_rank : Option Nat
  latitude : Option String
  longitude : Option String
  bounding_box : String
  polygon : String
  deriving DecidableEq, Repr

/-- `NominatimGeocoder.normalize_feature`.  The detailed address is
fetched from the remote `/details` endpoint, embedded as the oracle
`details : String → List AddressEntry` (feature id to address).
The Python code returns `None` when the derived feature id is falsy
(a dead guard, since `create_feature_id` always returns a non-empty
string or raises); the guard is kept for fidelity. -/
def normalize_feature (details : String → List AddressEntry)
    (raw : RawFeature) : Except PyError (Option Feature) := do
  let feature_id ← create_feature_id raw.osm_type raw.osm_id
  if feature_id = "" then
    return none
  return some {
    id := feature_id
    osm_id := raw.osm_id
    osm_type := raw.osm_type
    name := raw.display_name
    address := .parsed (details feature_id)
    place_rank := raw.place_rank
    latitude := raw.lat
    longitude := raw.lon
    bounding_box := json_dumps raw.boundingbox
    polygon := json_dumps raw.geojson }

/-! ## The feature cache (`cache.py`)

The SQLite schema file is not part of the sources under review; per the
specification (§6) the store has a table `feature` whose primary key is
`id`, and a table `feature_index` with columns `term`, `term_type`,
`feature_id` (foreign key to `feature`) and no declared uniqueness.
Modelled from the spec: `INSERT OR IGNORE` into `feature` therefore
deduplicates on `id`, while `INSERT OR IGNORE` into `feature_index`
behaves as a plain insert. -/

/-- A row of the `feature` table: the ten columns named in the
`INSERT` statement of `SQLiteCache.save_feature`.  The `address`
column is TEXT (the specification, §6: "serialized address or
omitted"). -/
structure FeatureRow where
  id : String
  osm_id : Option Nat
  osm_type : Option String
  name : Option String
  address : String
  place_rank : Option Nat
  latitude : Option String
  longitude : Option String
  bounding_box : String
  polygon : String
  deriving DecidableEq, Repr

/-- A row of the `feature_index` table. -/
structure IndexRow where
  term : String
  term_type : String
  feature_id : String
  deriving DecidableEq, Repr

/-- The persistent cache store: the two tables, each as a list of rows
in insertion order. -/
structure SQLiteCache where
  feature : List FeatureRow
  feature_index : List IndexRow
  deriving DecidableEq, Repr

/-- The empty cache (a freshly initialized database). -/
def SQLiteCache.empty : SQLiteCache := ⟨[], []⟩

/-- Parameter binding of `tuple(feature.values())` against the column
list of the `INSERT` statement in `SQLiteCache.save_feature`.  The
dictionary built by `normalize_feature` lists its keys in exactly the
column order; every value is a scalar Python's `sqlite3` can bind
(`None`/`int`/`str`) *except* the address: a parsed list-valued
address is an unsupported parameter type and raises
`sqlite3.ProgrammingError` (the legacy `geocode.py` passed
`json.dumps(address)` instead; `geo.py` dropped the serialization). -/
def bindFeature (f : Feature) : Except PyError FeatureRow :=
  match f.address with
  | .parsed _ =>
    .error (.programmingError
      "Error binding parameter 5: type list is not supported")
  | .text s =>
    .ok { id := f.id
          osm_id := f.osm_id
          osm_type := f.osm_type
          name := f.name
          address := s
          place_rank := f.place_rank
          latitude := f.latitude
          longitude := f.longitude
          bounding_box := f.bounding_box
          polygon := f.polygon }

/-- A cached row read back as a feature dictionary
(`SQLiteCache._get_record` zips column names with values).  The
address comes back as the stored TEXT — `geo.py` performs no
`json.loads` on it (the legacy `geocode.py` reader did). -/
def featureOfRow (r : FeatureRow) : Feature :=
  { id := r.id
    osm_id := r.osm_id
    osm_type := r.osm_type
    name := r.name
    address := .text r.address
    place_rank := r.place_rank
    latitude := r.latitude
    longitude := r.longitude
    bounding_box := r.bounding_box
    polygon := r.polygon }

/-- `SQLiteCache.get_feature`: `SELECT * FROM feature WHERE id = ?`,
first row or absent. -/
def SQLiteCache.get_feature (c : SQLiteCache) (feature_id : String) :
    Option FeatureRow :=
  c.feature.find? (fun r => r.id == feature_id)

/-- `SQLiteCache.find_feature`: join `feature_index` with `feature` on
`feature_index.feature_id = feature.id`, restricted to
`term = ?`; first result row or absent.  Note the query filters on
`term` alone — `term_type` is not consulted. -/
def SQLiteCache.find_feature (c : SQLiteCache) (term : String) :
    Option FeatureRow :=
  c.feature_index.findSome? (fun ir =>
    if ir.term == term then
      c.feature.find? (fun r => r.id == ir.feature_id)
    else none)

/-- Python truthiness of an optional string (`if term and term_type`):
`None` and the empty string are falsy. -/
def pyTruthy : Option String → Bool
  | none => false
  | some s => !s.isEmpty

/-- `SQLiteCache.save_feature`: bind the feature's values (raising the
driver's unsupported-type error when the address value is a parsed
list), `INSERT OR IGNORE` the row (deduplicating on the primary key
`id`), then — only when both `term` and `term_type` are truthy —
insert the `(term, term_type, id)` index row. -/
def SQLiteCache.save_feature (c : SQLiteCache) (f : Feature)
    (term : Option String) (term_type : Option String) :
    Except PyError SQLiteCache := do
  let row ← bindFeature f
  let feature' :=
    if c.feature.any (fun r => r.id == row.id) then c.feature
    else c.feature ++ [row]
  let index' :=
    if pyTruthy term && pyTruthy term_type then
      c.feature_index ++ [⟨term.getD "", term_type.getD "", f.id⟩]
    else c.feature_index
  return ⟨feature', index'⟩

/-! ## The cache-first fetch (`NominatimGeocoder.get_feature`) -/

/-- `NOMINATIM_API_METHODS` from `geo.py`. -/
def NOMINATIM_API_METHODS : List String := ["lookup", "search", "reverse"]

/-- The remote Nominatim service, as an oracle: `api method args` is
the (possibly empty) result list of one outbound request, and
`details` serves the `/details` endpoint used by `normalize_feature`.
The opaque `args` string stands for the request parameters. -/
structure Remote where
  api : String → String → List RawFeature
  details : String → List AddressEntry

/-- `NominatimGeocoder.get_feature`: cache-first orchestration.  By id
when `feature_id` is given (the id then also becomes the index term),
otherwise by term.  On a cache miss the remote method is invoked
(counted by the returned `Nat`); an empty result list or a
`mountain_range`-typed first result yields the empty dictionary
(embedded as `none`) and caches nothing; otherwise the first result is
normalized, saved together with its term index, and returned. -/
def get_feature (remote : Remote) (cache : SQLiteCache)
    (api_method : String) (api_args : String)
    (feature_id : Option String := none) (term : Option String := none)
    (term_type : Option String := none) :
    Except PyError (Option Feature × SQLiteCache × Nat) :=
  let lookedUp : Option FeatureRow × Option String :=
    match feature_id with
    | some fid => (cache.get_feature fid, some fid)
    | none =>
      (match term with
       | some t => cache.find_feature t
       | none => none, term)
  match lookedUp with
  | (some row, _) => .ok (some (featureOfRow row), cache, 0)
  | (none, term') =>
    if NOMINATIM_API_METHODS.contains api_method then
      match remote.api api_method api_args with
      | [] => .ok (none, cache, 1)
      | raw :: _ =>
        if raw.addresstype.getD "" == "mountain_range" then
          .ok (none, cache, 1)
        else
          match normalize_feature remote.details raw with
          | .error e => .error e
          | .ok none => .error .attributeError
          | .ok (some f) =>
            match cache.save_feature f term' term_type with
            | .error e => .error e
            | .ok cache' => .ok (some f, cache', 1)
    else .error (.valueError "Invalid Nominatim API method")

/-! ## Address-extraction helpers (`geo.py`) -/

/-- Python `min(entries, key=f)` for a non-empty list: the first
element attaining the minimum key. -/
def listMinBy (f : α → Int) (x : α) (xs : List α) : α :=
  xs.foldl (fun best e => if f e < f best then e else best) x

/-- `NominatimGeocoder.get_locality`: among address entries carrying a
`rank_address`, restrict to the band `[13, 25]` and return the
localname and feature id of the first entry with the minimum rank
(`(None, None)` when the band is empty). -/
def get_locality (detailed_address : List AddressEntry) :
    Except PyError (Option String × Option String) :=
  let entries_rank_address :=
    detailed_address.filter (fun e => e.rank_address.isSome)
  if entries_rank_address.isEmpty then .ok (none, none)
  else
    let entries_in_range := entries_rank_address.filter (fun e =>
      13 ≤ e.rank_address.getD 0 ∧ e.rank_address.getD 0 ≤ 25)
    match entries_in_range with
    | [] => .ok (none, none)
    | x :: xs => do
      let e := listMinBy (fun e => e.rank_address.getD 0) x xs
      let fid ← create_feature_id (some e.osm_type) (some e.osm_id)
      .ok (some e.localname, some fid)

/-- `NominatimGeocoder.get_admin_level_1`.  With a target level: the
first address entry whose `admin_level` (defaulting to `-1`) equals
the target, or `(None, None)`.  Without a target: the first entry with
the minimum `admin_level` among those carrying one, or
`(None, None)`. -/
def get_admin_level_1 (address_details : List AddressEntry)
    (admin_level_sought : Option Int) :
    Except PyError (Option String × Option String) :=
  match admin_level_sought with
  | some lvl => seek lvl address_details
  | none =>
    let entries := address_details.filter (fun e => e.admin_level.isSome)
    match entries with
    | [] => .ok (none, none)
    | x :: xs => do
      let e := listMinBy (fun e => e.admin_level.getD 0) x xs
      let fid ← create_feature_id (some e.osm_type) (some e.osm_id)
      .ok (some e.localname, some fid)
where
  /-- The `for` loop of the targeted branch. -/
  seek (lvl : Int) : List AddressEntry →
      Except PyError (Option String × Option String)
    | [] => .ok (none, none)
    | e :: es =>
      if e.admin_level.getD (-1) == lvl then do
        let fid ← create_feature_id (some e.osm_type) (some e.osm_id)
        .ok (some e.localname, some fid)
      else seek lvl es

/-- `NominatimGeocoder.get_country_name`: the localname of the first
address entry whose `type` is `"country"`. -/
def get_country_name (address : List AddressEntry) : Option String :=
  (address.find? (fun e => e.etype == "country")).map (·.localname)

/-- `get_locality` as invoked on the raw `address` value of a feature
dictionary (`locality.get("address")`): a parsed component list is
iterated as usual; a serialized TEXT value (a cache row read back
without `json.loads`) is iterated character by character, no character
passes the `"rank_address" in entry` substring test, and the result is
`(None, None)`. -/
def get_locality_value : AddressValue →
    Except PyError (Option String × Option String)
  | .parsed entries => get_locality entries
  | .text _ => .ok (none, none)

/-- `get_admin_level_1` as invoked on the raw `address` value of a
feature dictionary: a parsed component list behaves as
`get_admin_level_1`; on a serialized TEXT value the targeted branch
iterates characters and raises on the first one (`entry.get` on a
`str` is an `AttributeError`), while the minimum branch finds no entry
carrying `admin_level`. -/
def get_admin_level_1_value :
    AddressValue → Option Int →
    Except PyError (Option String × Option String)
  | .parsed entries, admin_level_sought =>
    get_admin_level_1 entries admin_level_sought
  | .text s, some _ =>
    if s.isEmpty then .ok (none, none) else .error .attributeError
  | .text _, none => .ok (none, none)

/-! ## The administrative-unit gazetteer builder (`norm.py`) -/

/-- One candidate entry of the gazetteer
(`{name, admin_level, osm_id}` in `get_admin_levels_table`). -/
structure AdminEntry where
  name : String
  admin_level : Int
  osm_id : String
  deriving DecidableEq, Repr

/-- One row of the `administrative_units.tsv` reference table, with the
columns the core reads (`nan` cells are `none`). -/
structure AdminUnitRow where
  iso3166_1_code : String
  exonym : Option String
  endonym : Option String
  nuts_code : Option String
  admin_level : Int
  osm_id : String
  deriving DecidableEq, Repr

/-- A word character in the sense of the regex class `\w`. -/
def isWordChar (c : Char) : Bool := c.isAlphanum || c == '_'

/-- Split a character list into maximal runs of word characters and
non-word characters (adjacent characters stay in one run exactly when
they agree on `isWordChar`). -/
def charRuns : List Char → List (List Char)
  | [] => []
  | c :: cs =>
    match charRuns cs with
    | [] => [[c]]
    | [] :: rest => [c] :: [] :: rest
    | (d :: run) :: rest =>
      if isWordChar c == isWordChar d then (c :: d :: run) :: rest
      else [c] :: (d :: run) :: rest

/-- `re.match("\b" + w + "\b", s)` for a word `w` consisting of word
characters: `re.match` anchors at the start of the string, so the
pattern matches exactly when `s` starts with `w` and the character
after it (if any) is not a word character. -/
def word_anchored_match (w s : List Char) : Bool :=
  w.isPrefixOf s &&
    match s.drop w.length with
    | [] => true
    | c :: _ => !isWordChar c

/-- `re.sub("\b" + w + "\b", syn, s)` for a word `w` consisting of word
characters: every maximal word-character run equal to `w` is replaced
by `syn`. -/
def word_substitute (w syn : String) (s : String) : String :=
  String.mk (List.flatten ((charRuns s.toList).map (fun run =>
    if run == w.toList then syn.toList else run)))

/-- The fixed `replacements` map of `get_admin_levels_table`
("some words are okay to be replaced, they are modifiers"). -/
def replacements : List (String × String) :=
  [("Oblast", "Region"), ("Krai", "Region")]

/-- The apostrophe character. -/
def apostrophe : Char := Char.ofNat 39

/-- `get_transliterated_endonym` (norm.py): transliterate the endonym
via the external `transliterate` library (the oracle `translitF`,
returning `none` on a `LanguageDetectionError`/`TypeError`); when the
endonym contains the Cyrillic soft sign and the transliteration an
apostrophe, the apostrophes are stripped.  Failure yields zero
entries. -/
def get_transliterated_endonym (translitF : String → Option String)
    (row : AdminUnitRow) : List AdminEntry :=
  match row.endonym with
  | none => []
  | some endonym =>
    match translitF endonym with
    | none => []
    | some tr =>
      let tr :=
        if endonym.contains 'ь' && tr.contains apostrophe then
          String.mk (tr.toList.filter (fun c => c ≠ apostrophe))
        else tr
      [⟨tr, row.admin_level, row.osm_id⟩]

/-- The per-row candidate generation of `get_admin_levels_table`
(lines 98–129 of `norm.py`): the exonym verbatim, the endonym verbatim
plus its transliteration, then — for each entry and each `replacements`
pair whose pattern `re.match`es the entry name — the substituted
variant. -/
def row_candidates (translitF : String → Option String)
    (row : AdminUnitRow) : List AdminEntry :=
  let exonym_entries : List AdminEntry :=
    match row.exonym with
    | some x => [⟨x, row.admin_level, row.osm_id⟩]
    | none => []
  let endonym_entries : List AdminEntry :=
    match row.endonym with
    | some x =>
      ⟨x, row.admin_level, row.osm_id⟩ ::
        get_transliterated_endonym translitF row
    | none => []
  let new_entries := exonym_entries ++ endonym_entries
  let new_entries_synonyms := new_entries.flatMap (fun e =>
    replacements.filterMap (fun p =>
      if word_anchored_match p.1.toList e.name.toList then
        some ⟨word_substitute p.1 p.2 e.name, e.admin_level, e.osm_id⟩
      else none))
  new_entries ++ new_entries_synonyms

/-- The per-country-code accumulation of `get_admin_levels_table`: the
candidate entries of all rows of one country, in row order. -/
def code_to_admin_entries (translitF : String → Option String)
    (rows : List AdminUnitRow) (country_code : String) : List AdminEntry :=
  (rows.filter (fun r => r.iso3166_1_code == country_code)).flatMap
    (row_candidates translitF)

/-! ## The admin-level policy table builder
(`create_admin_level_1_table.py`) -/

/-- One explicit override of `ADMIN_LEVEL_1_EXCEPTIONS`. -/
structure PolicyException where
  nuts_level : Option Nat
  osm_level : Option Int
  deriving DecidableEq, Repr

/-- Python `max(series)` over a non-empty list of levels. -/
def listMax (x : Int) (xs : List Int) : Int := xs.foldl max x

/-- Python `min(series)` over a non-empty list of levels. -/
def listMin (x : Int) (xs : List Int) : Int := xs.foldl min x

/-- The per-country body of `create_admin_level_1_table.main`,
computing the `(nuts_level, osm_level)` pair of one row of the
`admin_level_1` policy table (both start out empty).  An explicit
override wins.  Otherwise, for a country participating in the NUTS
scheme, `nuts_level` defaults to 3 and `osm_level` is the maximum
`admin_level` among the country's unit rows whose `nuts_code` has
length 5, left empty when the country has no such row.  For a
non-NUTS country, `osm_level` is the minimum `admin_level` among the
country's unit rows, left empty when there are none. -/
def policy_row (exceptions : List (String × PolicyException))
    (countries_with_nuts : List String) (admin_units : List AdminUnitRow)
    (country_code : String) : Option Nat × Option Int :=
  match exceptions.lookup country_code with
  | some exc => (exc.nuts_level, exc.osm_level)
  | none =>
    let admin_units_country :=
      admin_units.filter (fun r => r.iso3166_1_code == country_code)
    if countries_with_nuts.contains country_code then
      match admin_units_country with
      | [] => (some 3, none)
      | _ =>
        let rows_with_nuts_code_level := admin_units_country.filter
          (fun r =>
            match r.nuts_code with
            | some code => code.length == 5
            | none => false)
        match rows_with_nuts_code_level with
        | [] => (some 3, none)
        | r :: rs =>
          (some 3, some (listMax r.admin_level (rs.map (·.admin_level))))
    else
      match admin_units_country with
      | [] => (none, none)
      | r :: rs =>
        (none, some (listMin r.admin_level (rs.map (·.admin_level))))

/-! ## The free-text (GenBank) resolution algorithm (`norm.py`)

At this layer the geocoder is abstracted as a deterministic oracle
from a search query to its result
(`GenBankDataHandler._geocode` only issues `search` requests through
`NominatimGeocoder.get_feature` with `term = query` and
`term_type = "query"`; by the caching contract proven below the
observable result of such a call is a function of the query). -/

/-- The geocoder boundary of the resolution algorithms: a search query
string to the feature it resolves to, if any. -/
abbrev SearchOracle := String → Option Feature

/-- One row of the `admin_level_1.csv` policy table as read by the
resolution algorithms. -/
structure Admin1Row where
  country_code : String
  nuts_level : Option Nat
  osm_level : Option Int
  deriving DecidableEq, Repr

/-- The query built by `_search_tokens_diff_order`:
`", ".join(permutation) + ", " + fixed_text`. -/
def mkQuery (permutation : List String) (fixed_text : String) : String :=
  String.intercalate ", " permutation ++ ", " ++ fixed_text

/-- `[(l[i], l with index i removed)]` for each index `i` in order —
the choice points of `itertools.permutations`. -/
def pickEach : List α → List (α × List α)
  | [] => []
  | x :: xs => (x, xs) :: (pickEach xs).map (fun p => (p.1, x :: p.2))

/-- `itertools.permutations(l, r)`: all length-`r` permutations of `l`,
in enumeration order. -/
def permsLen : Nat → List α → List (List α)
  | 0, _ => [[]]
  | r + 1, l =>
    (pickEach l).flatMap (fun p => (permsLen r p.2).map (p.1 :: ·))

/-- `range(n, -1, -1)`: the list `[n, n-1, ..., 0]`. -/
def countdown : Nat → List Nat
  | 0 => [0]
  | n + 1 => (n + 1) :: countdown n

/-- The queries tried by `_search_tokens_diff_order`, in order: for
each length from `len(areas)` down to 0, every permutation of that
length joined with the fixed text. -/
def queriesEnum (areas : List String) (fixed_text : String) : List String :=
  (countdown areas.length).flatMap (fun len =>
    (permsLen len areas).map (mkQuery · fixed_text))

/-- The search loop: issue the queries in order and return the first
result. -/
def tryQueries (g : SearchOracle) : List String → Option Feature
  | [] => none
  | q :: qs =>
    match g q with
    | some f => some f
    | none => tryQueries g qs

/-- `GenBankDataHandler._search_tokens_diff_order`: try every
permutation of the token bag, longest first, each joined with the
fixed text; the first query with a result wins, `None` when all (down
to the bare fixed text) fail. -/
def search_tokens_diff_order (g : SearchOracle) (areas : List String)
    (fixed_text : String) : Option Feature :=
  tryQueries g (queriesEnum areas fixed_text)

/-- The result record of `_find_location_info`. -/
structure LocInfo where
  locality : Option String
  locality_osm_id : Option String
  admin_level_1 : Option String
  admin_level_1_osm_id : Option String
  deriving DecidableEq, Repr

/-- `GenBankDataHandler._find_location_info`: unstructured fallback —
permutation search over the reversed token bag, then extraction of
locality and admin-level-1 from the winning feature's address. -/
def find_location_info (g : SearchOracle) (areas : List String)
    (fixed_text : String) (admin_level_sought : Option Int) :
    Except PyError LocInfo := do
  match search_tokens_diff_order g areas.reverse fixed_text with
  | none => .ok ⟨none, none, none, none⟩
  | some locality => do
    let address := locality.address
    let (locality_name, locality_id) ← get_locality_value address
    let (admin_level_1_name, admin_level_1_id) ←
      get_admin_level_1_value address admin_level_sought
    .ok {
      locality := locality_name
      locality_osm_id := if locality_name.isSome then locality_id else none
      admin_level_1 := admin_level_1_name
      admin_level_1_osm_id :=
        if admin_level_1_name.isSome then admin_level_1_id else none }

/-- The six geocoding output fields of one record. -/
structure RowOut where
  country : Option String
  country_osm_id : Option String
  admin_level_1 : Option String
  admin_level_1_osm_id : Option String
  locality : Option String
  locality_osm_id : Option String
  deriving DecidableEq, Repr

/-- All six output fields empty (the arrays are initialized to
`None`). -/
def RowOut.empty : RowOut := ⟨none, none, none, none, none, none⟩

/-- Python `str.lower`, embedded at the character level (the gazetteer
names compared here are ASCII after transliteration). -/
def pyLower (s : String) : String := String.mk (s.toList.map Char.toLower)

/-- The token-matching pass of `GenBankDataHandler._geocode`: for each
gazetteer entry of the country in order, if its lowercased name is in
the token bag, remove one occurrence and record the entry. -/
def matchTokens (entries : List AdminEntry) (areas : List String) :
    List String × List AdminEntry :=
  entries.foldl (fun acc e =>
    if acc.1.contains (pyLower e.name) then
      (acc.1.erase (pyLower e.name), acc.2 ++ [e])
    else acc) (areas, [])

/-- The comparison `entry["admin_level"] == admin_level_1_sought` of
`GenBankDataHandler._geocode` line 684: a numeric policy level
compares by value; a missing policy level (`None`) is equal to no
entry level. -/
def levelMatches (admin_level_1_sought : Option Int) (e : AdminEntry) :
    Bool :=
  match admin_level_1_sought with
  | some lvl => e.admin_level == lvl
  | none => false

/-- The locality follow-up of lines 696–711 of
`GenBankDataHandler._geocode`: a permutation search over the reversed
remaining tokens against the fixed text, recording the locality of the
winning feature's address when one is present; on no result or no
locality the record is left as it is. -/
def locality_search_update (g : SearchOracle) (areas : List String)
    (fixed_location_text : String) (out : RowOut) :
    Except PyError RowOut := do
  match search_tokens_diff_order g areas.reverse fixed_location_text with
  | none => .ok out
  | some locality => do
    let (locality_name, locality_id) ←
      get_locality_value locality.address
    match locality_name with
    | some n =>
      .ok { out with locality := some n, locality_osm_id := locality_id }
    | none => .ok out

/-- Lines 681–731 of `GenBankDataHandler._geocode` (the branch taken
when at least one gazetteer entry matched): the last matched entry
whose `admin_level` equals the policy level (if any) becomes
admin-level-1; with an empty token bag the record is then finished;
with remaining tokens a permutation search over them — the fixed text
being the names of *all* matched entries plus the country — resolves
the locality.  When no matched entry has the policy level,
`_find_location_info` fills both fields.  (The `sorted(...)` call in
the source discards its result and is a no-op.) -/
def resolve_after_matching (g : SearchOracle)
    (admin_levels_found : List AdminEntry) (areas : List String)
    (admin_level_1_sought : Option Int) (country_name : String)
    (out : RowOut) : Except PyError RowOut := do
  let entry_admin_level_sought := admin_levels_found.foldl
    (fun acc e =>
      if levelMatches admin_level_1_sought e then some e else acc) none
  match entry_admin_level_sought with
  | some entry =>
    let out := { out with
      admin_level_1 := some entry.name
      admin_level_1_osm_id := some entry.osm_id }
    if areas.isEmpty then
      .ok out
    else
      let admin_levels_found_names := admin_levels_found.map (·.name)
      let fixed_location_text :=
        String.intercalate ", " admin_levels_found_names ++ ", " ++
          country_name
      locality_search_update g areas fixed_location_text out
  | none =>
    let admin_levels_found_names := admin_levels_found.map (·.name)
    let fixed_location_text :=
      String.intercalate ", " admin_levels_found_names ++ ", " ++
        country_name
    let result ← find_location_info g areas fixed_location_text
      admin_level_1_sought
    .ok { out with
      locality := result.locality
      locality_osm_id := result.locality_osm_id
      admin_level_1 := result.admin_level_1
      admin_level_1_osm_id := result.admin_level_1_osm_id }

/-- The parsed location of one GenBank record
(`{country, areas}` from `_format_location`). -/
structure GenBankLocation where
  country : Option String
  areas : List String
  deriving DecidableEq, Repr

/-- The per-record loop body of `GenBankDataHandler._geocode`
(lines 628–731): resolve the country by search; on failure leave every
output field empty; match tokens against the country's gazetteer
entries; resolve amount admin-level-1 and locality through the
matched entries or the permutation fallback. -/
def genbank_geocode_record (g : SearchOracle)
    (admin_levels_table : List (String × List AdminEntry))
    (admin_level_1_table : List Admin1Row)
    (country_to_code : List (String × String))
    (location : GenBankLocation) : Except PyError RowOut := do
  match location.country with
  | none => .ok RowOut.empty
  | some country_text =>
    match g country_text with
    | none => .ok RowOut.empty
    | some location_country =>
      let country_name? := location_country.name
      let out := { RowOut.empty with
        country := country_name?
        country_osm_id := some location_country.id }
      if location.areas.isEmpty then
        .ok out
      else
        match country_name?.bind (country_to_code.lookup ·) with
        | none => .ok out
        | some country_code =>
          match admin_level_1_table.find?
              (fun r => r.country_code == country_code) with
          | none => .error .indexError
          | some policy =>
            let admin_level_1_sought := policy.osm_level
            let country_name := country_name?.getD ""
            let entries :=
              (admin_levels_table.lookup country_name).getD []
            let (areas, admin_levels_found) :=
              matchTokens entries location.areas
            if admin_levels_found.isEmpty then do
              let result ← find_location_info g areas country_name
                admin_level_1_sought
              .ok { out with
                locality := result.locality
                locality_osm_id := result.locality_osm_id
                admin_level_1 := result.admin_level_1
                admin_level_1_osm_id := result.admin_level_1_osm_id }
            else
              resolve_after_matching g admin_levels_found areas
                admin_level_1_sought country_name out

/-- The record loop of `GenBankDataHandler._geocode`: each record is
resolved independently; an uncaught exception aborts the run. -/
def genbank_geocode_rows (g : SearchOracle)
    (admin_levels_table : List (String × List AdminEntry))
    (admin_level_1_table : List Admin1Row)
    (country_to_code : List (String × String)) :
    List GenBankLocation → Except PyError (List RowOut)
  | [] => .ok []
  | loc :: rest => do
    let out ← genbank_geocode_record g admin_levels_table
      admin_level_1_table country_to_code loc
    let outs ← genbank_geocode_rows g admin_levels_table
      admin_level_1_table country_to_code rest
    .ok (out :: outs)

/-! ## Region-code-driven resolution (`ECDCDataHandler._geocode`) -/

/-- Lines 941–964 of `ECDCDataHandler._geocode`: given the record's
NUTS code and the country's policy row, truncate an over-precise code
to `nuts_level + 2` characters, or drop the record (admin-level-1 left
empty) when the code is shorter than `nuts_level + 2`; a country
without a policy `nuts_level` keeps the code untruncated.  The
resulting code is looked up in the precomputed code→admin-unit index;
on a miss the admin-level-1 is extracted from the reverse-geocoded
address at the policy `osm_level`. -/
def ecdc_admin1_resolution
    (nuts_to_admin_level_1 : List (String × (Option String × String)))
    (address : List AddressEntry) (nuts_level_sought : Option Nat)
    (osm_level_sought : Option Int) (nuts_code : String) :
    Except PyError (Option String × Option String) :=
  let truncated : Option String :=
    match nuts_level_sought with
    | some lvl =>
      if nuts_code.length < lvl + 2 then none
      else if nuts_code.length > lvl + 2 then some (nuts_code.take (lvl + 2))
      else some nuts_code
    | none => some nuts_code
  match truncated with
  | none => .ok (none, none)
  | some code =>
    match nuts_to_admin_level_1.lookup code with
    | some entry => .ok (entry.1, some entry.2)
    | none => get_admin_level_1 address osm_level_sought

/-! ## Helper lemmas -/

theorem featureOfRow_bindFeature (f : Feature) (row : FeatureRow)
    (h : bindFeature f = .ok row) : featureOfRow row = f := by
  cases f with
  | mk id osm_id osm_type name address place_rank lat lon bb poly =>
    cases address with
    | parsed l => simp [bindFeature] at h
    | text s =>
      simp only [bindFeature, Except.ok.injEq] at h
      subst h
      rfl

theorem bindFeature_id (f : Feature) (row : FeatureRow)
    (h : bindFeature f = .ok row) : row.id = f.id := by
  cases hf : f.address with
  | parsed l => simp [bindFeature, hf] at h
  | text s =>
    simp only [bindFeature, hf, Except.ok.injEq] at h
    subst h
    rfl

theorem normalize_feature_address_parsed
    (details : String → List AddressEntry) (raw : RawFeature)
    (f : Feature) (h : normalize_feature details raw = .ok (some f)) :
    f.address = .parsed (details f.id) := by
  cases hc : create_feature_id raw.osm_type raw.osm_id with
  | error e =>
    simp [normalize_feature, hc, Bind.bind, Except.bind] at h
  | ok fid =>
    by_cases hfid : fid = ""
    · simp [normalize_feature, hc, hfid, Bind.bind, Except.bind,
        Pure.pure, Except.pure] at h
    · simp only [normalize_feature, hc, hfid, Bind.bind, Except.bind,
        if_neg hfid, if_false, Pure.pure, Except.pure, Except.ok.injEq,
        Option.some.injEq, eq_self_iff_true, decide_not] at h
      subst h
      rfl

theorem save_feature_parsed_error (c : SQLiteCache) (f : Feature)
    (entries : List AddressEntry) (term term_type : Option String)
    (h : f.address = .parsed entries) :
    c.save_feature f term term_type =
      .error (.programmingError
        "Error binding parameter 5: type list is not supported") := by
  simp [SQLiteCache.save_feature, bindFeature, h, Bind.bind, Except.bind]

theorem find?_append_of_none {p : α → Bool} {l1 : List α} (l2 : List α)
    (h : ∀ x ∈ l1, p x = false) :
    (l1 ++ l2).find? p = l2.find? p := by
  induction l1 with
  | nil => rfl
  | cons x xs ih =>
    have hx := h x (by simp)
    simp only [List.cons_append, List.find?_cons, hx]
    exact ih (fun y hy => h y (by simp [hy]))

theorem find?_eq_none_of_none {p : α → Bool} {l : List α}
    (h : ∀ x ∈ l, p x = false) : l.find? p = none := by
  have := @find?_append_of_none _ p l [] h
  simpa using this

theorem findSome?_append_of_none {f : α → Option β} {l1 : List α}
    (l2 : List α) (h : ∀ x ∈ l1, f x = none) :
    (l1 ++ l2).findSome? f = l2.findSome? f := by
  induction l1 with
  | nil => rfl
  | cons x xs ih =>
    have hx := h x (by simp)
    simp only [List.cons_append, List.findSome?_cons, hx]
    exact ih (fun y hy => h y (by simp [hy]))

theorem listMinBy_mem (f : α → Int) (x : α) (xs : List α) :
    listMinBy f x xs ∈ x :: xs := by
  induction xs generalizing x with
  | nil => simp [listMinBy]
  | cons y ys ih =>
    have step : listMinBy f x (y :: ys) =
        listMinBy f (if f y < f x then y else x) ys := by
      simp [listMinBy]
    rw [step]
    have h := List.mem_cons.mp (ih (if f y < f x then y else x))
    rcases h with h | h
    · by_cases hc : f y < f x <;> simp only [hc, if_true, if_false] at h <;>
        simp [hc, h]
    · simp [List.mem_cons, h]

theorem listMinBy_le (f : α → Int) (x : α) (xs : List α) :
    ∀ y ∈ x :: xs, f (listMinBy f x xs) ≤ f y := by
  induction xs generalizing x with
  | nil => simp [listMinBy]
  | cons y ys ih =>
    intro z hz
    have step : listMinBy f x (y :: ys) =
        listMinBy f (if f y < f x then y else x) ys := by
      simp [listMinBy]
    rw [step]
    have base := ih (if f y < f x then y else x)
    have hseed := base _ (List.mem_cons_self _ _)
    have hx : f (listMinBy f (if f y < f x then y else x) ys) ≤ f x := by
      by_cases hc : f y < f x
      · simp only [hc, if_true] at hseed ⊢
        exact le_trans hseed (le_of_lt hc)
      · simpa [hc] using hseed
    have hy : f (listMinBy f (if f y < f x then y else x) ys) ≤ f y := by
      by_cases hc : f y < f x
      · simpa [hc] using hseed
      · simp only [hc, if_false] at hseed ⊢
        exact le_trans hseed (le_of_not_lt hc)
    rcases List.mem_cons.mp hz with rfl | hz
    · exact hx
    rcases List.mem_cons.mp hz with rfl | hz
    · exact hy
    · exact base z (List.mem_cons.mpr (Or.inr hz))

theorem listMax_mem (x : Int) (xs : List Int) : listMax x xs ∈ x :: xs := by
  induction xs generalizing x with
  | nil => simp [listMax]
  | cons y ys ih =>
    have step : listMax x (y :: ys) = listMax (max x y) ys := by
      simp [listMax]
    rw [step]
    have h := List.mem_cons.mp (ih (max x y))
    rcases h with h | h
    · rw [h]
      rcases max_choice x y with hm | hm <;> rw [hm] <;> simp
    · simp [List.mem_cons, h]

theorem listMax_le (x : Int) (xs : List Int) :
    ∀ y ∈ x :: xs, y ≤ listMax x xs := by
  induction xs generalizing x with
  | nil => simp [listMax]
  | cons y ys ih =>
    intro z hz
    have step : listMax x (y :: ys) = listMax (max x y) ys := by
      simp [listMax]
    rw [step]
    have base := ih (max x y)
    have hseed := base _ (List.mem_cons_self _ _)
    rcases List.mem_cons.mp hz with rfl | hz
    · exact le_trans (le_max_left z y) hseed
    rcases List.mem_cons.mp hz with rfl | hz
    · exact le_trans (le_max_right x z) hseed
    · exact base z (List.mem_cons.mpr (Or.inr hz))

theorem listMin_mem (x : Int) (xs : List Int) : listMin x xs ∈ x :: xs := by
  induction xs generalizing x with
  | nil => simp [listMin]
  | cons y ys ih =>
    have step : listMin x (y :: ys) = listMin (min x y) ys := by
      simp [listMin]
    rw [step]
    have h := List.mem_cons.mp (ih (min x y))
    rcases h with h | h
    · rw [h]
      rcases min_choice x y with hm | hm <;> rw [hm] <;> simp
    · simp [List.mem_cons, h]

theorem listMin_le (x : Int) (xs : List Int) :
    ∀ y ∈ x :: xs, listMin x xs ≤ y := by
  induction xs generalizing x with
  | nil => simp [listMin]
  | cons y ys ih =>
    intro z hz
    have step : listMin x (y :: ys) = listMin (min x y) ys := by
      simp [listMin]
    rw [step]
    have base := ih (min x y)
    have hseed := base _ (List.mem_cons_self _ _)
    rcases List.mem_cons.mp hz with rfl | hz
    · exact le_trans hseed (min_le_left z y)
    rcases List.mem_cons.mp hz with rfl | hz
    · exact le_trans hseed (min_le_right x z)
    · exact base z (List.mem_cons.mpr (Or.inr hz))


theorem string_length_take (s : String) (n : Nat) :
    (s.take n).length = min n s.length := by
  rw [String.take_eq]
  show (s.data.take n).length = min n s.data.length
  exact List.length_take n s.data

/-! ## Claim C2 -/

/-- C2: the spec demands whole-word synonym substitution anywhere in a
unit name, so that "Amur Oblast" yields an additional candidate
"Amur Region" while "Oblastville" yields none.  The code compiles the
whole-word pattern but gates the substitution with `re.match`, which
anchors at the start of the name: a unit named "Amur Oblast" yields no
substituted variant (only a name that starts with the modifier word,
such as "Oblast of Amur", does), contradicting the spec's stated
behaviour and the evident intent of the whole-word pattern.  The
"Oblastville" half of the claim does hold. -/
theorem c2_anchored_substitution :
    (row_candidates (fun _ => none)
        ⟨"RU", some "Amur Oblast", none, none, 4, "R1"⟩).map (·.name) =
      ["Amur Oblast"] ∧
    (row_candidates (fun _ => none)
        ⟨"RU", some "Oblastville", none, none, 4, "R2"⟩).map (·.name) =
      ["Oblastville"] ∧
    (row_candidates (fun _ => none)
        ⟨"RU", some "Oblast of Amur", none, none, 4, "R3"⟩).map (·.name) =
      ["Oblast of Amur", "Region of Amur"] :=
  ⟨rfl, rfl, rfl⟩

/-! ## Claim C3 -/

/-- C3 counterexample: a coded (NUTS) country without an override whose
units carry only a level-2 code (length 4, here "XX12") — the claim
says the builder falls back to the longest present coded level and
targets the maximum admin_level there (4), but the code only ever
scans level 3 (code length 5) and leaves the target empty. -/
theorem c3_counterexample :
    policy_row [] ["XX"] [⟨"XX", none, none, some "XX12", 4, "R1"⟩] "XX" =
      (some 3, none) ∧
    (none : Option Int) ≠ some 4 :=
  ⟨rfl, by decide⟩

/-- C3 (amended): for a country without an explicit override — if it
participates in the coded (NUTS) scheme, only coded level 3 (codes of
length 5) is examined: when such unit rows exist the target admin
level is the maximum admin_level among them, and when none exist the
target is left empty (there is no fallback to coded levels 2 or 1);
if it does not participate, the target is the minimum admin_level
among its unit rows. -/
theorem c3_policy_selection (exceptions : List (String × PolicyException))
    (countries_with_nuts : List String) (admin_units : List AdminUnitRow)
    (country_code : String)
    (hexc : exceptions.lookup country_code = none) :
    (countries_with_nuts.contains country_code = true →
      ((admin_units.filter
          (fun r => r.iso3166_1_code == country_code)).filter
          (fun r => match r.nuts_code with
                    | some code => code.length == 5
                    | none => false) = [] →
        policy_row exceptions countries_with_nuts admin_units country_code =
          (some 3, none)) ∧
      (∀ r rs,
        (admin_units.filter
            (fun r => r.iso3166_1_code == country_code)).filter
            (fun r => match r.nuts_code with
                      | some code => code.length == 5
                      | none => false) = r :: rs →
        ∃ m,
          policy_row exceptions countries_with_nuts admin_units
              country_code = (some 3, some m) ∧
          (∀ u ∈ r :: rs, u.admin_level ≤ m) ∧
          (∃ u ∈ r :: rs, u.admin_level = m))) ∧
    (countries_with_nuts.contains country_code = false →
      ∀ r rs,
        admin_units.filter (fun r => r.iso3166_1_code == country_code) =
          r :: rs →
        ∃ m,
          policy_row exceptions countries_with_nuts admin_units
              country_code = (none, some m) ∧
          (∀ u ∈ r :: rs, m ≤ u.admin_level) ∧
          (∃ u ∈ r :: rs, u.admin_level = m)) := by
  constructor
  · intro hin
    have hin' : country_code ∈ countries_with_nuts := by simpa using hin
    constructor
    · intro h5
      cases hc : admin_units.filter
          (fun r => r.iso3166_1_code == country_code) with
      | nil => simp [policy_row, hexc, hin', hc]
      | cons a as => simp [policy_row, hexc, hin', hc, hc ▸ h5]
    · intro r rs h5
      cases hc : admin_units.filter
          (fun r => r.iso3166_1_code == country_code) with
      | nil => simp [hc] at h5
      | cons a as =>
        refine ⟨listMax r.admin_level (rs.map (·.admin_level)), ?_, ?_, ?_⟩
        · simp [policy_row, hexc, hin', hc, hc ▸ h5]
        · intro u hu
          rcases List.mem_cons.mp hu with rfl | hu
          · exact listMax_le _ _ _ (List.mem_cons_self _ _)
          · exact listMax_le _ _ _
              (List.mem_cons.mpr (Or.inr (List.mem_map_of_mem _ hu)))
        · rcases List.mem_cons.mp (listMax_mem r.admin_level
              (rs.map (·.admin_level))) with hm | hm
          · exact ⟨r, List.mem_cons_self _ _, hm.symm⟩
          · rcases List.mem_map.mp hm with ⟨u, hu, he⟩
            exact ⟨u, List.mem_cons.mpr (Or.inr hu), he⟩
  · intro hout r rs hc
    have hout' : country_code ∉ countries_with_nuts := by simpa using hout
    refine ⟨listMin r.admin_level (rs.map (·.admin_level)), ?_, ?_, ?_⟩
    · simp [policy_row, hexc, hout', hc]
    · intro u hu
      rcases List.mem_cons.mp hu with rfl | hu
      · exact listMin_le _ _ _ (List.mem_cons_self _ _)
      · exact listMin_le _ _ _
          (List.mem_cons.mpr (Or.inr (List.mem_map_of_mem _ hu)))
    · rcases List.mem_cons.mp (listMin_mem r.admin_level
          (rs.map (·.admin_level))) with hm | hm
      · exact ⟨r, List.mem_cons_self _ _, hm.symm⟩
      · rcases List.mem_map.mp hm with ⟨u, hu, he⟩
        exact ⟨u, List.mem_cons.mpr (Or.inr hu), he⟩

/-- C3 witness: the amended policy-selection theorem applied to one
coded country with a level-3 row (target 6 = max of {4, 6}) and one
non-coded country with levels {2, 4, 6} (target 2). -/
theorem c3_policy_selection_witness :
    policy_row [] ["XX"]
        [⟨"XX", none, none, some "XX123", 4, "R1"⟩,
         ⟨"XX", none, none, some "XX124", 6, "R2"⟩] "XX" =
      (some 3, some 6) ∧
    policy_row [] []
        [⟨"YY", none, none, none, 2, "R1"⟩,
         ⟨"YY", none, none, none, 4, "R2"⟩,
         ⟨"YY", none, none, none, 6, "R3"⟩] "YY" =
      (none, some 2) := by
  constructor
  · have h := (c3_policy_selection [] ["XX"]
        [⟨"XX", none, none, some "XX123", 4, "R1"⟩,
         ⟨"XX", none, none, some "XX124", 6, "R2"⟩] "XX" rfl).1
        (by decide)
    rcases h.2 ⟨"XX", none, none, some "XX123", 4, "R1"⟩
        [⟨"XX", none, none, some "XX124", 6, "R2"⟩] (by decide)
      with ⟨m, hm, hle, u, hu, he⟩
    have h6 : m = 6 := by
      have h1 : (6 : Int) ≤ m :=
        hle ⟨"XX", none, none, some "XX124", 6, "R2"⟩ (by decide)
      have h2 : u.admin_level ≤ 6 := by
        fin_cases hu <;> decide
      rw [he] at h2
      omega
    rw [hm, h6]
  · rcases (c3_policy_selection [] []
        [⟨"YY", none, none, none, 2, "R1"⟩,
         ⟨"YY", none, none, none, 4, "R2"⟩,
         ⟨"YY", none, none, none, 6, "R3"⟩] "YY" rfl).2
        (by decide) ⟨"YY", none, none, none, 2, "R1"⟩
        [⟨"YY", none, none, none, 4, "R2"⟩,
         ⟨"YY", none, none, none, 6, "R3"⟩] (by decide)
      with ⟨m, hm, hle, u, hu, he⟩
    have h2 : m = 2 := by
      have h1 : m ≤ (2 : Int) :=
        hle ⟨"YY", none, none, none, 2, "R1"⟩ (by decide)
      have h3 : 2 ≤ u.admin_level := by
        fin_cases hu <;> decide
      rw [he] at h3
      omega
    rw [hm, h2]

/-! ## Claim C5 -/

/-- C5 counterexample: regional code "FRY10" for a country whose policy
code-level is 1 is truncated to the first 1 + 2 = 3 characters, "FRY"
— not to "FRY1" as the claim states — and the subsequent index lookup
therefore uses "FRY". -/
theorem c5_counterexample :
    ecdc_admin1_resolution
        [("FRY", (some "RUP France", "R1")),
         ("FRY1", (some "Guadeloupe", "R2"))]
        [] (some 1) none "FRY10" = .ok (some "RUP France", some "R1") ∧
    "FRY10".take (1 + 2) = "FRY" ∧
    "FRY" ≠ "FRY1" :=
  ⟨rfl, rfl, by decide⟩

/-- C5 (amended): in region-code-driven resolution, a record whose
regional code is longer than policy-level + 2 characters is truncated
to its first policy-level + 2 characters before lookup (so "FRY10"
with policy code-level 1 becomes "FRY", and would become "FRY1" only
with policy code-level 2); a code shorter than policy-level + 2
characters is rejected as too coarse and the record's admin-level-1
fields are left empty. -/
theorem c5_code_truncation
    (nuts_to_admin_level_1 : List (String × (Option String × String)))
    (address : List AddressEntry) (nuts_level : Nat)
    (osm_level : Option Int) (nuts_code : String) :
    (nuts_level + 2 < nuts_code.length →
      ecdc_admin1_resolution nuts_to_admin_level_1 address
          (some nuts_level) osm_level nuts_code =
        ecdc_admin1_resolution nuts_to_admin_level_1 address
          (some nuts_level) osm_level (nuts_code.take (nuts_level + 2))) ∧
    (nuts_code.length < nuts_level + 2 →
      ecdc_admin1_resolution nuts_to_admin_level_1 address
          (some nuts_level) osm_level nuts_code = .ok (none, none)) := by
  constructor
  · intro h
    have hlen : (nuts_code.take (nuts_level + 2)).length = nuts_level + 2 := by
      rw [string_length_take]
      omega
    have h1 : ¬ nuts_code.length < nuts_level + 2 := by omega
    have h2 : nuts_code.length > nuts_level + 2 := h
    simp [ecdc_admin1_resolution, h1, h2, hlen]
  · intro h
    simp [ecdc_admin1_resolution, h]

/-- C5 witness: the amended truncation theorem applied to "FRY10" with
policy code-level 1 (truncation to "FRY") and to "FR" with policy
code-level 1 (rejected as too coarse). -/
theorem c5_code_truncation_witness :
    ecdc_admin1_resolution [] [] (some 1) none "FRY10" =
      ecdc_admin1_resolution [] [] (some 1) none ("FRY10".take (1 + 2)) ∧
    ecdc_admin1_resolution [] [] (some 1) none "FR" = .ok (none, none) :=
  ⟨(c5_code_truncation [] [] 1 none "FRY10").1 (by decide),
   (c5_code_truncation [] [] 1 none "FR").2 (by decide)⟩

/-! ## Claim C10 -/

/-- C10: cache term lookup matches on the term string alone and
ignores `term_type` — saving any feature under a term with either of
two discriminators yields, outcome for outcome, the same
`find_feature` result for that term (conjunct one, for every feature
and cache state, the binding-error outcome included); and a feature
whose values bind, saved under a fresh term into a cache not holding
its id, is found by a lookup of the equal term string regardless of
the discriminator it was saved with, returning exactly the saved row
(conjunct two) — so a coordinate-string term and a free-text query
term that are equal as strings resolve to the same cached feature. -/
theorem c10_find_feature_ignores_term_type (c : SQLiteCache) (f : Feature)
    (t t1 t2 : String) (ht : t ≠ "") (h1 : t1 ≠ "") (h2 : t2 ≠ "") :
    ((c.save_feature f (some t) (some t1)).map
        (fun c2 => c2.find_feature t) =
      (c.save_feature f (some t) (some t2)).map
        (fun c2 => c2.find_feature t)) ∧
    (∀ row, bindFeature f = .ok row →
      (∀ ir ∈ c.feature_index, ir.term ≠ t) →
      (∀ fr ∈ c.feature, fr.id ≠ f.id) →
      (c.save_feature f (some t) (some t1)).map
          (fun c2 => c2.find_feature t) =
        .ok (some row)) := by
  have htruthy : ∀ s : String, s ≠ "" → pyTruthy (some s) = true := by
    intro s hs
    have : s.isEmpty = false := by
      cases he : s.isEmpty
      · rfl
      · exact absurd (String.isEmpty_iff s |>.mp he) hs
    simp [pyTruthy, this]
  have hsave : ∀ (s : String) (row : FeatureRow), s ≠ "" →
      bindFeature f = .ok row →
      c.save_feature f (some t) (some s) =
        .ok ⟨(if c.feature.any (fun r => r.id == row.id) then c.feature
            else c.feature ++ [row]),
          c.feature_index ++ [⟨t, s, f.id⟩]⟩ := by
    intro s row hs hrow
    simp [SQLiteCache.save_feature, hrow, htruthy t ht, htruthy s hs,
      Bind.bind, Except.bind, Pure.pure, Except.pure]
  constructor
  · cases hrow : bindFeature f with
    | error e =>
      simp [SQLiteCache.save_feature, hrow, Bind.bind, Except.bind,
        Except.map]
    | ok row =>
      rw [hsave t1 row h1 hrow, hsave t2 row h2 hrow]
      simp only [Except.map, SQLiteCache.find_feature,
        List.findSome?_append]
      rfl
  · intro row hrow hterm hid
    rw [hsave t1 row h1 hrow]
    have hid2 : ∀ fr ∈ c.feature, fr.id ≠ row.id := by
      intro x hx
      rw [bindFeature_id f row hrow]
      exact hid x hx
    have hany : c.feature.any (fun r => r.id == row.id) = false := by
      rw [List.any_eq_false]
      intro x hx
      simp [hid2 x hx]
    simp only [Except.map, hany, if_neg Bool.false_ne_true,
      SQLiteCache.find_feature]
    rw [findSome?_append_of_none]
    · simp only [List.findSome?_cons, beq_self_eq_true, if_true]
      rw [find?_append_of_none]
      · simp [List.find?_cons, bindFeature_id f row hrow]
      · intro x hx
        simp [hid x hx]
    · intro ir hir
      simp [hterm ir hir]

/-- C10 witness: a bindable feature saved under the coordinate term
"51.5, -0.12" with discriminator "coordinate" is found by a later
lookup of the equal string regardless of discriminator, and equals the
saved row. -/
theorem c10_find_feature_ignores_term_type_witness :
    ((SQLiteCache.empty.save_feature
        ⟨"R7", some 7, some "relation", some "Somewhere",
         AddressValue.text "[]", none, none, none, "null", "null"⟩
        (some "51.5, -0.12") (some "coordinate")).map
        (fun c2 => c2.find_feature "51.5, -0.12") =
      (SQLiteCache.empty.save_feature
        ⟨"R7", some 7, some "relation", some "Somewhere",
         AddressValue.text "[]", none, none, none, "null", "null"⟩
        (some "51.5, -0.12") (some "query")).map
        (fun c2 => c2.find_feature "51.5, -0.12")) ∧
    ((SQLiteCache.empty.save_feature
        ⟨"R7", some 7, some "relation", some "Somewhere",
         AddressValue.text "[]", none, none, none, "null", "null"⟩
        (some "51.5, -0.12") (some "coordinate")).map
        (fun c2 => c2.find_feature "51.5, -0.12") =
      .ok (some ⟨"R7", some 7, some "relation", some "Somewhere", "[]",
        none, none, none, "null", "null"⟩)) := by
  have h := c10_find_feature_ignores_term_type SQLiteCache.empty
    ⟨"R7", some 7, some "relation", some "Somewhere",
     AddressValue.text "[]", none, none, none, "null", "null"⟩
    "51.5, -0.12" "coordinate" "query" (by decide) (by decide) (by decide)
  exact ⟨h.1, h.2
    ⟨"R7", some 7, some "relation", some "Somewhere", "[]", none, none,
     none, "null", "null"⟩ rfl
    (by simp [SQLiteCache.empty]) (by simp [SQLiteCache.empty])⟩

/-- The targeted branch of `get_admin_level_1` returns the first
address entry whose `admin_level` (defaulting to `-1`) equals the
target. -/
theorem get_admin_level_1_seek_eq (lvl : Int) (addr : List AddressEntry) :
    get_admin_level_1.seek lvl addr =
      match addr.find? (fun e => e.admin_level.getD (-1) == lvl) with
      | none => .ok (none, none)
      | some e =>
        (create_feature_id (some e.osm_type) (some e.osm_id)).map
          (fun fid => (some e.localname, some fid)) := by
  induction addr with
  | nil => rfl
  | cons e es ih =>
    by_cases h : e.admin_level.getD (-1) == lvl
    · cases hc : create_feature_id (some e.osm_type) (some e.osm_id) <;>
        simp [get_admin_level_1.seek, List.find?_cons, h, hc, Except.map,
          Bind.bind, Except.bind]
    · simp only [get_admin_level_1.seek, List.find?_cons]
      rw [if_neg (by simpa using h)]
      have hb : (e.admin_level.getD (-1) == lvl) = false := by
        simpa using h
      rw [hb]
      exact ih

/-! ## Claim C9 -/

/-- C9: for every address-component list, with a target admin level
`get_admin_level_1` returns the (first) component whose `admin_level`
equals exactly that number, and `(None, None)` when no component has
it; without a target it returns the (first) component with the minimum
`admin_level` among those carrying the attribute, and `(None, None)`
when none carry one. -/
theorem c9_get_admin_level_1_spec :
    (∀ (address : List AddressEntry) (t : Int),
      (address.find? (fun e => e.admin_level.getD (-1) == t) = none →
        get_admin_level_1 address (some t) = .ok (none, none)) ∧
      (∀ e, address.find? (fun e => e.admin_level.getD (-1) == t) =
          some e →
        get_admin_level_1 address (some t) =
          (create_feature_id (some e.osm_type) (some e.osm_id)).map
            (fun fid => (some e.localname, some fid)))) ∧
    (∀ address : List AddressEntry,
      (address.filter (fun e => e.admin_level.isSome) = [] →
        get_admin_level_1 address none = .ok (none, none)) ∧
      (∀ x xs, address.filter (fun e => e.admin_level.isSome) = x :: xs →
        ∃ e, e ∈ address ∧ e.admin_level.isSome ∧
          (∀ e2 ∈ address, e2.admin_level.isSome →
            e.admin_level.getD 0 ≤ e2.admin_level.getD 0) ∧
          get_admin_level_1 address none =
            (create_feature_id (some e.osm_type) (some e.osm_id)).map
              (fun fid => (some e.localname, some fid)))) := by
  constructor
  · intro address t
    constructor
    · intro h
      show get_admin_level_1.seek t address = _
      rw [get_admin_level_1_seek_eq, h]
    · intro e h
      show get_admin_level_1.seek t address = _
      rw [get_admin_level_1_seek_eq, h]
  · intro address
    constructor
    · intro h
      simp [get_admin_level_1, h]
    · intro x xs h
      refine ⟨listMinBy (fun e => e.admin_level.getD 0) x xs, ?_, ?_, ?_, ?_⟩
      · have hm := listMinBy_mem (fun e => e.admin_level.getD 0) x xs
        have : listMinBy (fun e => e.admin_level.getD 0) x xs ∈
            address.filter (fun e => e.admin_level.isSome) := by
          rw [h]; exact hm
        exact (List.mem_filter.mp this).1
      · have hm := listMinBy_mem (fun e => e.admin_level.getD 0) x xs
        have : listMinBy (fun e => e.admin_level.getD 0) x xs ∈
            address.filter (fun e => e.admin_level.isSome) := by
          rw [h]; exact hm
        exact (List.mem_filter.mp this).2
      · intro e2 he2 hsome
        have : e2 ∈ address.filter (fun e => e.admin_level.isSome) :=
          List.mem_filter.mpr ⟨he2, hsome⟩
        rw [h] at this
        exact listMinBy_le (fun e => e.admin_level.getD 0) x xs e2 this
      · simp only [get_admin_level_1, h]
        cases hc : create_feature_id
            (some (listMinBy (fun e => e.admin_level.getD 0) x xs).osm_type)
            (some (listMinBy (fun e => e.admin_level.getD 0) x xs).osm_id) <;>
          simp [hc, Except.map, Bind.bind, Except.bind]

/-- C9 witness: the specification of `get_admin_level_1` applied to a
concrete two-component address — target level 4 selects the level-4
component, and without a target the minimum-level component (level 4)
wins over the level-6 one. -/
theorem c9_get_admin_level_1_spec_witness :
    get_admin_level_1
        [⟨"Dak Lak", "state", some 4, some 12, "relation", 10⟩,
         ⟨"Buon Ho", "town", some 6, some 18, "relation", 11⟩]
        (some 4) = .ok (some "Dak Lak", some "R10") ∧
    get_admin_level_1
        [⟨"Dak Lak", "state", some 4, some 12, "relation", 10⟩,
         ⟨"Buon Ho", "town", some 6, some 18, "relation", 11⟩]
        none = .ok (some "Dak Lak", some "R10") := by
  constructor
  · have h := (c9_get_admin_level_1_spec.1
        [⟨"Dak Lak", "state", some 4, some 12, "relation", 10⟩,
         ⟨"Buon Ho", "town", some 6, some 18, "relation", 11⟩] 4).2
        ⟨"Dak Lak", "state", some 4, some 12, "relation", 10⟩ (by decide)
    rw [h]
    rfl
  · rcases (c9_get_admin_level_1_spec.2
        [⟨"Dak Lak", "state", some 4, some 12, "relation", 10⟩,
         ⟨"Buon Ho", "town", some 6, some 18, "relation", 11⟩]).2
        ⟨"Dak Lak", "state", some 4, some 12, "relation", 10⟩
        [⟨"Buon Ho", "town", some 6, some 18, "relation", 11⟩] (by decide)
      with ⟨e, he, hsome, hmin, heq⟩
    have h4 : e = ⟨"Dak Lak", "state", some 4, some 12, "relation", 10⟩ := by
      have h1 := hmin ⟨"Dak Lak", "state", some 4, some 12, "relation", 10⟩
        (by decide) (by decide)
      fin_cases he
      · rfl
      · exact absurd h1 (by decide)
    rw [heq, h4]
    rfl

/-! ## Claim C6 -/

/-- C6: the round trip `normalize_feature(raw)` →
`cache.save_feature` → `cache.get_feature(id)` never completes in this
program.  A feature accepted by `normalize_feature` carries the
*parsed* `/details` address list (here, one France component), and
`save_feature` binds `tuple(feature.values())` — so the driver raises
its unsupported-parameter-type error on the list-valued address for
every cache state and every term/term_type pair, instead of storing
the feature and returning it field-for-field (the legacy `geocode.py`
serialized the address with `json.dumps` before saving, and parsed it
back on read; `geo.py` dropped both, which is the slip). -/
theorem c6_save_binding_error :
    normalize_feature
        (fun _ => [⟨"France", "country", none, some 4, "relation", 1⟩])
        ⟨some "relation", some 42, some "Testland", some 4, some "1.0",
         some "2.0", none, none, none⟩ =
      .ok (some ⟨"R42", some 42, some "relation", some "Testland",
        .parsed [⟨"France", "country", none, some 4, "relation", 1⟩],
        some 4, some "1.0", some "2.0", "null", "null"⟩) ∧
    (∀ (c : SQLiteCache) (term term_type : Option String),
      c.save_feature
          ⟨"R42", some 42, some "relation", some "Testland",
           .parsed [⟨"France", "country", none, some 4, "relation", 1⟩],
           some 4, some "1.0", some "2.0", "null", "null"⟩
          term term_type =
        .error (.programmingError
          "Error binding parameter 5: type list is not supported")) := by
  constructor
  · rfl
  · intro c term term_type
    exact save_feature_parsed_error c _ _ term term_type rfl

/-- A term with no index row never finds a feature. -/
theorem find_feature_eq_none_of_no_term (c : SQLiteCache) (t : String)
    (h : ∀ ir ∈ c.feature_index, ir.term ≠ t) :
    c.find_feature t = none := by
  have h' : ∀ ir ∈ c.feature_index,
      (if ir.term == t then
        c.feature.find? (fun r => r.id == ir.feature_id)
      else none) = none := by
    intro ir hir
    simp [h ir hir]
  have := @findSome?_append_of_none _ _ _ c.feature_index [] h'
  simpa [SQLiteCache.find_feature] using this

/-! ## Claim C1 -/

/-- C1 counterexample: with a remote service that yields no result for
the term "Atlantis", a cache-backed fetch performs one remote call and
returns the cache *unchanged* (nothing is saved for a no-result
lookup); the second of two successive identical calls therefore starts
from the very same cache state and performs a second remote call — two
remote calls in total, not the claimed exactly one. -/
theorem c1_counterexample :
    get_feature ⟨fun _ _ => [], fun _ => []⟩ SQLiteCache.empty "search"
        "Atlantis" none (some "Atlantis") (some "query") =
      .ok (none, SQLiteCache.empty, 1) ∧
    (1 + 1 : Nat) ≠ 1 :=
  ⟨rfl, by decide⟩

/-- C1 (amended): the claimed contract is unachievable on this code,
in either direction.  When the first lookup yields no result, nothing
is cached and the call returns the cache *unchanged* after one remote
call — so the second identical call starts from the same state and
performs its own remote call, two in total instead of the claimed
exactly one (conjuncts one and two: by term and by id).  And when the
first lookup yields a usable result (a non-empty result list whose
first entry is not `mountain_range`-typed and normalizes
successfully), the call raises the driver's unsupported-parameter-type
error while saving the freshly normalized feature — its address value
is an unserialized list — so it returns no feature at all and no
second fetch is ever served from the cache (conjuncts three and four:
by term and by id). -/
theorem c1_cached_fetch_idempotence :
    (∀ (remote : Remote) (c : SQLiteCache) (m a t tt : String),
      (∀ ir ∈ c.feature_index, ir.term ≠ t) →
      NOMINATIM_API_METHODS.contains m = true →
      remote.api m a = [] →
      get_feature remote c m a none (some t) (some tt) =
        .ok (none, c, 1)) ∧
    (∀ (remote : Remote) (c : SQLiteCache) (m a fid : String)
        (tt : Option String),
      (∀ fr ∈ c.feature, fr.id ≠ fid) →
      NOMINATIM_API_METHODS.contains m = true →
      remote.api m a = [] →
      get_feature remote c m a (some fid) none tt =
        .ok (none, c, 1)) ∧
    (∀ (remote : Remote) (c : SQLiteCache) (m a t tt : String)
        (raw : RawFeature) (rest : List RawFeature) (f : Feature),
      (∀ ir ∈ c.feature_index, ir.term ≠ t) →
      NOMINATIM_API_METHODS.contains m = true →
      remote.api m a = raw :: rest →
      raw.addresstype.getD "" ≠ "mountain_range" →
      normalize_feature remote.details raw = .ok (some f) →
      get_feature remote c m a none (some t) (some tt) =
        .error (.programmingError
          "Error binding parameter 5: type list is not supported")) ∧
    (∀ (remote : Remote) (c : SQLiteCache) (m a fid : String)
        (tt : Option String) (raw : RawFeature) (rest : List RawFeature)
        (f : Feature),
      (∀ fr ∈ c.feature, fr.id ≠ fid) →
      NOMINATIM_API_METHODS.contains m = true →
      remote.api m a = raw :: rest →
      raw.addresstype.getD "" ≠ "mountain_range" →
      normalize_feature remote.details raw = .ok (some f) →
      get_feature remote c m a (some fid) none tt =
        .error (.programmingError
          "Error binding parameter 5: type list is not supported")) := by
  refine ⟨?_, ?_, ?_, ?_⟩
  · intro remote c m a t tt hterm hm hapi
    have hm2 : m ∈ NOMINATIM_API_METHODS := by simpa using hm
    have hmiss : c.find_feature t = none :=
      find_feature_eq_none_of_no_term c t hterm
    simp [get_feature, hmiss, hm2, hapi]
  · intro remote c m a fid tt hid hm hapi
    have hm2 : m ∈ NOMINATIM_API_METHODS := by simpa using hm
    have hmiss : c.get_feature fid = none := by
      apply find?_eq_none_of_none
      intro x hx
      simp [hid x hx]
    simp [get_feature, hmiss, hm2, hapi]
  · intro remote c m a t tt raw rest f hterm hm hapi hmr hnorm
    have hm2 : m ∈ NOMINATIM_API_METHODS := by simpa using hm
    have hmiss : c.find_feature t = none :=
      find_feature_eq_none_of_no_term c t hterm
    have hmr2 : (raw.addresstype.getD "" == "mountain_range") = false := by
      simpa using hmr
    have hsave := save_feature_parsed_error c f (remote.details f.id)
      (some t) (some tt)
      (normalize_feature_address_parsed remote.details raw f hnorm)
    simp [get_feature, hmiss, hm2, hapi, hmr2, hnorm, hsave]
  · intro remote c m a fid tt raw rest f hid hm hapi hmr hnorm
    have hm2 : m ∈ NOMINATIM_API_METHODS := by simpa using hm
    have hmiss : c.get_feature fid = none := by
      apply find?_eq_none_of_none
      intro x hx
      simp [hid x hx]
    have hmr2 : (raw.addresstype.getD "" == "mountain_range") = false := by
      simpa using hmr
    have hsave := save_feature_parsed_error c f (remote.details f.id)
      (some fid) tt
      (normalize_feature_address_parsed remote.details raw f hnorm)
    simp [get_feature, hmiss, hm2, hapi, hmr2, hnorm, hsave]

/-- C1 witness: the amended theorem applied to concrete remote
services — a no-result service (one remote call, cache unchanged, by
term and by id) and a one-result service (the call raises the binding
error instead of caching, by term and by id), from the empty cache. -/
theorem c1_cached_fetch_idempotence_witness :
    (get_feature ⟨fun _ _ => [], fun _ => []⟩ SQLiteCache.empty "search"
        "Atlantis" none (some "Atlantis") (some "query") =
      .ok (none, SQLiteCache.empty, 1)) ∧
    (get_feature ⟨fun _ _ => [], fun _ => []⟩ SQLiteCache.empty "lookup"
        "R42" (some "R42") none none =
      .ok (none, SQLiteCache.empty, 1)) ∧
    (get_feature
        ⟨fun _ _ => [⟨some "relation", some 42, some "Testland", some 4,
          some "1.0", some "2.0", none, none, none⟩], fun _ => []⟩
        SQLiteCache.empty "search" "Testland" none (some "Testland")
        (some "query") =
      .error (.programmingError
        "Error binding parameter 5: type list is not supported")) ∧
    (get_feature
        ⟨fun _ _ => [⟨some "relation", some 42, some "Testland", some 4,
          some "1.0", some "2.0", none, none, none⟩], fun _ => []⟩
        SQLiteCache.empty "lookup" "R42" (some "R42") none none =
      .error (.programmingError
        "Error binding parameter 5: type list is not supported")) := by
  refine ⟨?_, ?_, ?_, ?_⟩
  · exact c1_cached_fetch_idempotence.1 ⟨fun _ _ => [], fun _ => []⟩
      SQLiteCache.empty "search" "Atlantis" "Atlantis" "query"
      (by simp [SQLiteCache.empty]) (by decide) rfl
  · exact c1_cached_fetch_idempotence.2.1 ⟨fun _ _ => [], fun _ => []⟩
      SQLiteCache.empty "lookup" "R42" "R42" none
      (by simp [SQLiteCache.empty]) (by decide) rfl
  · exact c1_cached_fetch_idempotence.2.2.1
      ⟨fun _ _ => [⟨some "relation", some 42, some "Testland", some 4,
        some "1.0", some "2.0", none, none, none⟩], fun _ => []⟩
      SQLiteCache.empty "search" "Testland" "Testland" "query"
      ⟨some "relation", some 42, some "Testland", some 4, some "1.0",
       some "2.0", none, none, none⟩ []
      ⟨"R42", some 42, some "relation", some "Testland",
       AddressValue.parsed [], some 4, some "1.0", some "2.0", "null",
       "null"⟩
      (by simp [SQLiteCache.empty]) (by decide) rfl (by decide) rfl
  · exact c1_cached_fetch_idempotence.2.2.2
      ⟨fun _ _ => [⟨some "relation", some 42, some "Testland", some 4,
        some "1.0", some "2.0", none, none, none⟩], fun _ => []⟩
      SQLiteCache.empty "lookup" "R42" "R42" none
      ⟨some "relation", some 42, some "Testland", some 4, some "1.0",
       some "2.0", none, none, none⟩ []
      ⟨"R42", some 42, some "relation", some "Testland",
       AddressValue.parsed [], some 4, some "1.0", some "2.0", "null",
       "null"⟩
      (by simp [SQLiteCache.empty]) (by decide) rfl (by decide) rfl

/-! ## Claim C7 -/

/-- C7: in the free-text resolution algorithm, a record whose country
search yields no result is marked fully unresolved — country,
admin-level-1 and locality output fields all stay empty — no exception
is raised (the result is an `ok` value), and processing continues with
the next record (the remaining records are resolved exactly as they
would be on their own). -/
theorem c7_country_search_failure (g : SearchOracle)
    (admin_levels_table : List (String × List AdminEntry))
    (admin_level_1_table : List Admin1Row)
    (country_to_code : List (String × String)) (country_text : String)
    (areas : List String) (rest : List GenBankLocation)
    (hfail : g country_text = none) :
    genbank_geocode_record g admin_levels_table admin_level_1_table
        country_to_code ⟨some country_text, areas⟩ = .ok RowOut.empty ∧
    genbank_geocode_rows g admin_levels_table admin_level_1_table
        country_to_code (⟨some country_text, areas⟩ :: rest) =
      (genbank_geocode_rows g admin_levels_table admin_level_1_table
        country_to_code rest).map (RowOut.empty :: ·) := by
  have hrec : genbank_geocode_record g admin_levels_table
      admin_level_1_table country_to_code ⟨some country_text, areas⟩ =
        .ok RowOut.empty := by
    simp [genbank_geocode_record, hfail]
  refine ⟨hrec, ?_⟩
  simp only [genbank_geocode_rows, hrec]
  cases h : genbank_geocode_rows g admin_levels_table admin_level_1_table
      country_to_code rest <;>
    simp [h, Except.map, Bind.bind, Except.bind]

/-- C7 witness: with a remote search that finds nothing, a concrete
record resolves to the all-empty output without an exception, and the
following record is still processed. -/
theorem c7_country_search_failure_witness :
    genbank_geocode_record (fun _ => none) [] [] []
        ⟨some "atlantis", ["mu"]⟩ = .ok RowOut.empty ∧
    genbank_geocode_rows (fun _ => none) [] [] []
        [⟨some "atlantis", ["mu"]⟩, ⟨none, []⟩] =
      (genbank_geocode_rows (fun _ => none) [] [] []
        [⟨none, []⟩]).map (RowOut.empty :: ·) :=
  c7_country_search_failure (fun _ => none) [] [] [] "atlantis" ["mu"]
    [⟨none, []⟩] rfl

/-- The accumulator-threaded last-match fold of
`resolve_after_matching` can only return an element of the list
satisfying the predicate, or the initial accumulator. -/
theorem foldl_choice_mem {p : AdminEntry → Bool} :
    ∀ (l : List AdminEntry) (acc : Option AdminEntry) (e : AdminEntry),
      l.foldl (fun acc x => if p x then some x else acc) acc = some e →
      (e ∈ l ∧ p e = true) ∨ acc = some e := by
  intro l
  induction l with
  | nil => intro acc e h; exact Or.inr h
  | cons y ys ih =>
    intro acc e h
    simp only [List.foldl_cons] at h
    rcases ih _ e h with ⟨hm, hp⟩ | hacc
    · exact Or.inl ⟨List.mem_cons.mpr (Or.inr hm), hp⟩
    · by_cases hy : p y
      · rw [if_pos hy] at hacc
        obtain rfl : y = e := by injection hacc
        exact Or.inl ⟨List.mem_cons_self _ _, hy⟩
      · rw [if_neg hy] at hacc
        exact Or.inr hacc

/-- Once the accumulator is occupied, the last-match fold stays
occupied. -/
theorem foldl_choice_some {p : AdminEntry → Bool} :
    ∀ (l : List AdminEntry) (a : AdminEntry),
      ∃ e, l.foldl (fun acc x => if p x then some x else acc) (some a) =
        some e := by
  intro l
  induction l with
  | nil => intro a; exact ⟨a, rfl⟩
  | cons y ys ih =>
    intro a
    simp only [List.foldl_cons]
    by_cases hy : p y
    · rw [if_pos hy]; exact ih y
    · rw [if_neg hy]; exact ih a

/-- When some element satisfies the predicate, the last-match fold
returns an element. -/
theorem foldl_choice_isSome {p : AdminEntry → Bool} :
    ∀ (l : List AdminEntry) (acc : Option AdminEntry),
      (∃ x ∈ l, p x = true) →
      ∃ e, l.foldl (fun acc x => if p x then some x else acc) acc =
        some e := by
  intro l
  induction l with
  | nil => intro acc h; simp at h
  | cons y ys ih =>
    intro acc h
    simp only [List.foldl_cons]
    by_cases hy : p y
    · rw [if_pos hy]; exact foldl_choice_some ys y
    · rw [if_neg hy]
      rcases h with ⟨x, hx, hp⟩
      rcases List.mem_cons.mp hx with rfl | hx
      · exact absurd hp (by simp [hy])
      · exact ih acc ⟨x, hx, hp⟩

/-- The last-match fold either returns the last element of the list
satisfying the predicate — an element followed only by non-matching
ones — or the untouched accumulator when nothing matches. -/
theorem foldl_choice_last {p : AdminEntry → Bool} :
    ∀ (l : List AdminEntry) (acc : Option AdminEntry) (e : AdminEntry),
      l.foldl (fun acc x => if p x then some x else acc) acc = some e →
      (∃ pre post, l = pre ++ e :: post ∧ p e = true ∧
        ∀ x ∈ post, p x = false) ∨
      (acc = some e ∧ ∀ x ∈ l, p x = false) := by
  intro l
  induction l with
  | nil => intro acc e h; exact Or.inr ⟨h, by simp⟩
  | cons y ys ih =>
    intro acc e h
    simp only [List.foldl_cons] at h
    rcases ih _ e h with ⟨pre, post, hdec, hpe, hpost⟩ | ⟨hacc, hall⟩
    · refine Or.inl ⟨y :: pre, post, ?_, hpe, hpost⟩
      rw [hdec]
      rfl
    · by_cases hy : p y
      · rw [if_pos hy] at hacc
        obtain rfl : y = e := by injection hacc
        exact Or.inl ⟨[], ys, rfl, hy, hall⟩
      · rw [if_neg hy] at hacc
        refine Or.inr ⟨hacc, ?_⟩
        intro x hx
        rcases List.mem_cons.mp hx with rfl | hx
        · simpa using hy
        · exact hall x hx

/-- The locality follow-up only ever writes the locality fields: the
country and admin-level-1 fields of any successful outcome are those
it started from. -/
theorem locality_search_update_admin1 (g : SearchOracle)
    (areas : List String) (fixed_location_text : String) (out : RowOut) :
    ∀ result,
      locality_search_update g areas fixed_location_text out =
        .ok result →
      result.admin_level_1 = out.admin_level_1 ∧
      result.admin_level_1_osm_id = out.admin_level_1_osm_id ∧
      result.country = out.country ∧
      result.country_osm_id = out.country_osm_id := by
  intro result h
  unfold locality_search_update at h
  cases hs : search_tokens_diff_order g areas.reverse fixed_location_text
    with
  | none =>
    simp only [hs] at h
    obtain rfl : out = result := by injection h
    exact ⟨rfl, rfl, rfl, rfl⟩
  | some locality =>
    cases hl : get_locality_value locality.address with
    | error e =>
      simp [hs, hl, Bind.bind, Except.bind] at h
    | ok pr =>
      obtain ⟨ln, lid⟩ := pr
      cases ln with
      | some n =>
        simp only [hs, hl, Bind.bind, Except.bind, Except.ok.injEq] at h
        subst h
        exact ⟨rfl, rfl, rfl, rfl⟩
      | none =>
        simp only [hs, hl, Bind.bind, Except.bind, Except.ok.injEq] at h
        subst h
        exact ⟨rfl, rfl, rfl, rfl⟩

/-! ## Claim C4 -/

/-- C4 counterexample: a record for country "Testland" whose two area
tokens both match gazetteer entries ("Alpha Region" at the policy
level 4, "Beta Town" at level 6).  After "Alpha Region" is accepted as
admin-level-1 the token bag is empty while the matched entry
"Beta Town" remains, yet the code records *no* locality (its comment
states the remaining matched entries "can't be a locality"), whereas
the claim says the next matched entry becomes the locality; the
accepted entry is also not removed from the matched set. -/
theorem c4_counterexample :
    genbank_geocode_record
        (fun q =>
          if q == "testland" then
            some ⟨"R1", some 1, some "relation", some "Testland",
              AddressValue.parsed [], none, none, none, "null", "null"⟩
          else none)
        [("Testland", [⟨"Alpha Region", 4, "R10"⟩, ⟨"Beta Town", 6, "R11"⟩])]
        [⟨"TL", some 3, some 4⟩] [("Testland", "TL")]
        ⟨some "testland", ["alpha region", "beta town"]⟩ =
      .ok ⟨some "Testland", some "R1", some "Alpha Region", some "R10",
        none, none⟩ ∧
    some "Beta Town" ≠ (none : Option String) :=
  ⟨rfl, by decide⟩

/-- C4 (amended): whenever some matched gazetteer entry's admin_level
equals the country's policy admin level, the *last* such matched entry
(an entry followed in the matched set only by entries of other levels)
is the one recorded as admin-level-1 in every successful outcome, for
any token bag; the entry is not removed from the matched set — with a
non-empty bag the follow-up locality query joins the names of *all*
matched entries, the accepted one included; and if the token bag is
empty at that point, resolution ends there with the locality left
unchanged (empty), even when other matched entries remain. -/
theorem c4_admin_level_match (g : SearchOracle)
    (admin_levels_found : List AdminEntry) (areas : List String)
    (admin_level_1_sought : Option Int) (country_name : String)
    (out : RowOut)
    (hmatch : ∃ x ∈ admin_levels_found,
      levelMatches admin_level_1_sought x = true) :
    ∃ e pre post,
      admin_levels_found = pre ++ e :: post ∧
      levelMatches admin_level_1_sought e = true ∧
      (∀ x ∈ post, levelMatches admin_level_1_sought x = false) ∧
      (∀ result,
        resolve_after_matching g admin_levels_found areas
            admin_level_1_sought country_name out = .ok result →
        result.admin_level_1 = some e.name ∧
        result.admin_level_1_osm_id = some e.osm_id) ∧
      (areas = [] →
        resolve_after_matching g admin_levels_found areas
            admin_level_1_sought country_name out =
          .ok { out with
            admin_level_1 := some e.name
            admin_level_1_osm_id := some e.osm_id }) ∧
      (areas ≠ [] →
        resolve_after_matching g admin_levels_found areas
            admin_level_1_sought country_name out =
          locality_search_update g areas
            (String.intercalate ", "
              (admin_levels_found.map (fun x => x.name)) ++ ", " ++
              country_name)
            { out with
              admin_level_1 := some e.name
              admin_level_1_osm_id := some e.osm_id }) := by
  obtain ⟨e, hfold⟩ := foldl_choice_isSome admin_levels_found none hmatch
  rcases foldl_choice_last admin_levels_found none e hfold with
    ⟨pre, post, hdec, hpe, hpost⟩ | ⟨hacc, _⟩
  swap
  · exact absurd hacc (by simp)
  have hres_empty : areas = [] →
      resolve_after_matching g admin_levels_found areas
          admin_level_1_sought country_name out =
        .ok { out with
          admin_level_1 := some e.name
          admin_level_1_osm_id := some e.osm_id } := by
    intro ha
    subst ha
    simp [resolve_after_matching, hfold]
  have hres_nonempty : areas ≠ [] →
      resolve_after_matching g admin_levels_found areas
          admin_level_1_sought country_name out =
        locality_search_update g areas
          (String.intercalate ", "
            (admin_levels_found.map (fun x => x.name)) ++ ", " ++
            country_name)
          { out with
            admin_level_1 := some e.name
            admin_level_1_osm_id := some e.osm_id } := by
    intro ha
    have hne : areas.isEmpty = false := by
      cases areas with
      | nil => exact absurd rfl ha
      | cons z zs => rfl
    simp [resolve_after_matching, hfold, hne]
  refine ⟨e, pre, post, hdec, hpe, hpost, ?_, hres_empty, hres_nonempty⟩
  intro result hres
  by_cases ha : areas = []
  · rw [hres_empty ha] at hres
    obtain rfl :
        ({ out with
           admin_level_1 := some e.name
           admin_level_1_osm_id := some e.osm_id } : RowOut) = result := by
      injection hres
    exact ⟨rfl, rfl⟩
  · rw [hres_nonempty ha] at hres
    have hfields := locality_search_update_admin1 g areas
      (String.intercalate ", "
        (admin_levels_found.map (fun x => x.name)) ++ ", " ++
        country_name)
      { out with
        admin_level_1 := some e.name
        admin_level_1_osm_id := some e.osm_id }
      result hres
    exact ⟨hfields.1, hfields.2.1⟩

/-- C4 witness: the amended theorem applied to two matched entries
("Alpha Region" at the sought level 4, "Beta Town" at level 6) and an
empty token bag: admin-level-1 is "Alpha Region" and the locality
stays empty. -/
theorem c4_admin_level_match_witness :
    resolve_after_matching (fun _ => none)
        [⟨"Alpha Region", 4, "R10"⟩, ⟨"Beta Town", 6, "R11"⟩] []
        (some 4) "Testland" RowOut.empty =
      .ok { RowOut.empty with
        admin_level_1 := some "Alpha Region"
        admin_level_1_osm_id := some "R10" } := by
  obtain ⟨e, pre, post, hdec, hpe, hpost, hrec, hempty, hnon⟩ :=
    c4_admin_level_match (fun _ => none)
      [⟨"Alpha Region", 4, "R10"⟩, ⟨"Beta Town", 6, "R11"⟩] [] (some 4)
      "Testland" RowOut.empty
      ⟨⟨"Alpha Region", 4, "R10"⟩, by decide, by decide⟩
  have hm : e ∈ [(⟨"Alpha Region", 4, "R10"⟩ : AdminEntry),
      ⟨"Beta Town", 6, "R11"⟩] := by
    rw [hdec]
    exact List.mem_append.mpr (Or.inr (List.mem_cons_self _ _))
  have he : e = ⟨"Alpha Region", 4, "R10"⟩ := by
    fin_cases hm
    · rfl
    · exact absurd hpe (by decide)
  rw [hempty rfl, he]

/-- The search loop over a concatenation: the first block wins if it
yields a result. -/
theorem tryQueries_append (g : SearchOracle) (a b : List String) :
    tryQueries g (a ++ b) =
      match tryQueries g a with
      | some v => some v
      | none => tryQueries g b := by
  induction a with
  | nil => simp [tryQueries]
  | cons q qs ih =>
    simp only [List.cons_append, tryQueries]
    cases g q <;> simp [ih]

/-- The search loop fails exactly when every query fails. -/
theorem tryQueries_eq_none_iff (g : SearchOracle) (qs : List String) :
    tryQueries g qs = none ↔ ∀ q ∈ qs, g q = none := by
  induction qs with
  | nil => simp [tryQueries]
  | cons q rest ih =>
    simp only [tryQueries]
    cases hq : g q <;> simp [hq, ih]

/-- A successful search result comes from some query of the list. -/
theorem tryQueries_eq_some_exists (g : SearchOracle) (qs : List String)
    (v : Feature) (h : tryQueries g qs = some v) :
    ∃ q ∈ qs, g q = some v := by
  induction qs with
  | nil => simp [tryQueries] at h
  | cons q rest ih =>
    simp only [tryQueries] at h
    cases hq : g q with
    | some w =>
      rw [hq] at h
      exact ⟨q, List.mem_cons_self _ _, hq.trans h⟩
    | none =>
      rw [hq] at h
      rcases ih h with ⟨q2, hq2, hg⟩
      exact ⟨q2, List.mem_cons.mpr (Or.inr hq2), hg⟩

/-- The search loop is `List.findSome?`. -/
theorem tryQueries_eq_findSome? (g : SearchOracle) (qs : List String) :
    tryQueries g qs = qs.findSome? g := by
  induction qs with
  | nil => rfl
  | cons q rest ih =>
    simp only [tryQueries, List.findSome?_cons]
    cases g q <;> simp [ih]

/-- Removing one picked element shortens the list by exactly one. -/
theorem pickEach_length {l : List α} :
    ∀ x rest, (x, rest) ∈ pickEach l → rest.length + 1 = l.length := by
  induction l with
  | nil => intro x rest h; simp [pickEach] at h
  | cons y ys ih =>
    intro x rest h
    simp only [pickEach, List.mem_cons] at h
    rcases h with h | h
    · have h2 : rest = ys := congrArg Prod.snd h
      subst h2
      simp
    · rcases List.mem_map.mp h with ⟨⟨z1, z2⟩, hz, he⟩
      have h1 : x = z1 := (congrArg Prod.fst he).symm
      have h2 : rest = y :: z2 := (congrArg Prod.snd he).symm
      subst h1
      subst h2
      have := ih _ _ hz
      simp [List.length_cons]
      omega

/-- A length-`r` permutation exists only when `r` is at most the list
length. -/
theorem permsLen_le_length {α : Type} {r : Nat} :
    ∀ {l : List α} {p : List α}, p ∈ permsLen r l → r ≤ l.length := by
  induction r with
  | zero => intro l p _; exact Nat.zero_le _
  | succ r ih =>
    intro l p hp
    simp only [permsLen, List.mem_flatMap] at hp
    rcases hp with ⟨⟨x, rest⟩, hpick, hmem⟩
    rcases List.mem_map.mp hmem with ⟨p2, hp2, _⟩
    have h1 : r ≤ rest.length := ih hp2
    have h2 : rest.length + 1 = l.length := pickEach_length x rest hpick
    omega

/-- `range(n, -1, -1)` contains every value at most `n`. -/
theorem mem_countdown {L n : Nat} (h : L ≤ n) : L ∈ countdown n := by
  induction n with
  | zero =>
    have : L = 0 := Nat.le_zero.mp h
    simp [countdown, this]
  | succ n ih =>
    simp only [countdown, List.mem_cons]
    rcases Nat.lt_or_ge L (n + 1) with hl | hl
    · exact Or.inr (ih (Nat.lt_succ_iff.mp hl))
    · exact Or.inl (Nat.le_antisymm h hl)

/-- Every permutation-derived query is in the enumeration. -/
theorem mem_queriesEnum {areas : List String} {fixed_text : String}
    {L : Nat} {p : List String} (hp : p ∈ permsLen L areas) :
    mkQuery p fixed_text ∈ queriesEnum areas fixed_text := by
  have hL : L ≤ areas.length := permsLen_le_length hp
  simp only [queriesEnum, List.mem_flatMap]
  exact ⟨L, mem_countdown hL, List.mem_map_of_mem _ hp⟩

/-- Core of the permutation-search preference property: over the
descending-length enumeration, a success at length `L ≤ n` guarantees
the returned result comes from some permutation of length at least
`L`. -/
theorem tryQueries_countdown_pref (g : SearchOracle) (areas : List String)
    (fixed_text : String) :
    ∀ (n L : Nat) (p : List String), L ≤ n → p ∈ permsLen L areas →
      (g (mkQuery p fixed_text)).isSome →
      ∃ L2 p2, L ≤ L2 ∧ p2 ∈ permsLen L2 areas ∧
        tryQueries g ((countdown n).flatMap (fun len =>
          (permsLen len areas).map (mkQuery · fixed_text))) =
          g (mkQuery p2 fixed_text) ∧
        (g (mkQuery p2 fixed_text)).isSome := by
  intro n
  induction n with
  | zero =>
    intro L p hL hp hs
    have hL0 : L = 0 := Nat.le_zero.mp hL
    subst hL0
    have hp0 : p = [] := by simpa [permsLen] using hp
    subst hp0
    refine ⟨0, [], Nat.le_refl 0, by simp [permsLen], ?_, hs⟩
    cases hg : g (mkQuery [] fixed_text) with
    | some v => simp [countdown, permsLen, tryQueries, hg]
    | none => rw [hg] at hs; simp at hs
  | succ n ih =>
    intro L p hL hp hs
    have hsplit : (countdown (n + 1)).flatMap (fun len =>
        (permsLen len areas).map (mkQuery · fixed_text)) =
      ((permsLen (n + 1) areas).map (mkQuery · fixed_text)) ++
        (countdown n).flatMap (fun len =>
          (permsLen len areas).map (mkQuery · fixed_text)) := by
      simp [countdown]
    rw [hsplit, tryQueries_append]
    cases hhead : tryQueries g
        ((permsLen (n + 1) areas).map (mkQuery · fixed_text)) with
    | some v =>
      rcases tryQueries_eq_some_exists g _ v hhead with ⟨q, hq, hgq⟩
      rcases List.mem_map.mp hq with ⟨p2, hp2, rfl⟩
      refine ⟨n + 1, p2, ?_, hp2, by simp [hgq], by simp [hgq]⟩
      omega
    | none =>
      have hfailtop := (tryQueries_eq_none_iff g _).mp hhead
      rcases Nat.lt_or_ge L (n + 1) with hl | hl
      · rcases ih L p (Nat.lt_succ_iff.mp hl) hp hs with
          ⟨L2, p2, hL2, hp2, heq, hs2⟩
        exact ⟨L2, p2, hL2, hp2, by simp [heq], hs2⟩
      · have hLe : L = n + 1 := Nat.le_antisymm hL hl
        subst hLe
        have := hfailtop (mkQuery p fixed_text) (List.mem_map_of_mem _ hp)
        rw [this] at hs
        simp at hs

/-! ## Claim C8 -/

/-- C8: the unstructured fallback search enumerates, in decreasing
subset length from the full token bag down to the empty subset, every
permutation of the bag joined with the fixed country text, and returns
the result of the first query of this enumeration that succeeds
(conjunct one); consequently, whenever some permutation of length `L`
succeeds, the returned result comes from a permutation of length at
least `L` — a result reachable with a longer token subset is always
preferred over one reachable only with a shorter subset (conjunct
two); and a `None` outcome means every permutation, down to the bare
country text, failed (conjunct three). -/
theorem c8_permutation_search :
    (∀ (g : SearchOracle) (areas : List String) (fixed_text : String),
      search_tokens_diff_order g areas fixed_text =
        (queriesEnum areas fixed_text).findSome? g) ∧
    (∀ (g : SearchOracle) (areas : List String) (fixed_text : String)
        (L : Nat) (p : List String),
      p ∈ permsLen L areas → (g (mkQuery p fixed_text)).isSome →
      ∃ L2 p2, L ≤ L2 ∧ p2 ∈ permsLen L2 areas ∧
        search_tokens_diff_order g areas fixed_text =
          g (mkQuery p2 fixed_text) ∧
        (g (mkQuery p2 fixed_text)).isSome) ∧
    (∀ (g : SearchOracle) (areas : List String) (fixed_text : String),
      search_tokens_diff_order g areas fixed_text = none →
      ∀ (L : Nat) (p : List String), p ∈ permsLen L areas →
        g (mkQuery p fixed_text) = none) := by
  refine ⟨?_, ?_, ?_⟩
  · intro g areas fixed_text
    exact tryQueries_eq_findSome? g (queriesEnum areas fixed_text)
  · intro g areas fixed_text L p hp hs
    exact tryQueries_countdown_pref g areas fixed_text areas.length L p
      (permsLen_le_length hp) hp hs
  · intro g areas fixed_text hnone L p hp
    exact (tryQueries_eq_none_iff g _).mp hnone (mkQuery p fixed_text)
      (mem_queriesEnum hp)

/-- C8 witness: with a token bag of two tokens and an oracle that only
answers the query "b, a, F", the permutation search returns that
feature — reached at the full subset length 2. -/
theorem c8_permutation_search_witness :
    search_tokens_diff_order
        (fun q =>
          if q == "b, a, F" then
            some ⟨"R9", some 9, some "relation", some "Somewhere",
              AddressValue.parsed [], none, none, none, "null", "null"⟩
          else none)
        ["a", "b"] "F" =
      some ⟨"R9", some 9, some "relation", some "Somewhere",
        AddressValue.parsed [], none, none, none, "null", "null"⟩ := by
  obtain ⟨L2, p2, hL2, hp2, heq, hs⟩ := c8_permutation_search.2.1
    (fun q =>
      if q == "b, a, F" then
        some ⟨"R9", some 9, some "relation", some "Somewhere",
          AddressValue.parsed [], none, none, none, "null", "null"⟩
      else none)
    ["a", "b"] "F" 2 ["b", "a"] (by decide) (by decide)
  have hL2' : L2 = 2 :=
    Nat.le_antisymm (permsLen_le_length hp2) hL2
  subst hL2'
  have hp2' : p2 ∈ [["a", "b"], ["b", "a"]] := hp2
  rw [heq]
  fin_cases hp2'
  · exact absurd hs (by decide)
  · decide
